import Mathlib

/-!
# Verification of the Project-Manager scanner, classifier, cache and health scorer

This development gives a shallow embedding of the directory-scanning core of
the Project-Manager repository (`project_manager_gui.py`, `project_manager.py`)
and proves (or refutes) the behavioural claims stated about it.

The filesystem is modelled as a finite tree of directories (`FSDir`), each
holding plain files (`FSFile`) with a name, a modification time (in seconds),
a size in bytes and a textual content.  Python `Path` operations are mapped as
follows:

* `(p / name).exists()`      → `hasEntry d name` (matches a file *or* a subdirectory);
* `p.iterdir()` over dirs    → `d.subdirs`;
* `p.glob("*" + ext)`        → suffix test over the names of files and subdirectories;
* `p.rglob("*")`             → recursive enumeration of the subtree (`allFiles`,
                               `entryCount`);
* `p.stat().st_mtime`        → the `mtime` field.

Modification times are modelled as natural numbers (seconds); the code never
does float arithmetic on them other than `max` and comparison, so this is
exact.
-/

namespace ProjectManager

/-- A plain file: name, modification time (seconds), size (bytes), content. -/
structure FSFile where
  name : String
  mtime : Nat
  size : Nat
  content : String
deriving DecidableEq

/-- A directory tree: name, own modification time, direct files, subdirectories. -/
inductive FSDir where
  | mk (name : String) (mtime : Nat) (files : List FSFile) (subdirs : List FSDir)

/-- Directory name. -/
def FSDir.name : FSDir → String
  | .mk n _ _ _ => n

/-- Directory modification time. -/
def FSDir.mtime : FSDir → Nat
  | .mk _ m _ _ => m

/-- Direct files of a directory. -/
def FSDir.files : FSDir → List FSFile
  | .mk _ _ fs _ => fs

/-- Direct subdirectories of a directory. -/
def FSDir.subdirs : FSDir → List FSDir
  | .mk _ _ _ ds => ds

/-- Look up a direct file by exact name (first match, as on a real filesystem
where sibling names are unique). -/
def getFile? (d : FSDir) (n : String) : Option FSFile :=
  d.files.find? (fun f => f.name = n)

/-- Look up a direct subdirectory by exact name. -/
def getSubdir? (d : FSDir) (n : String) : Option FSDir :=
  d.subdirs.find? (fun c => c.name = n)

/-- Python `(path / n).exists()`: true if a file or a subdirectory named `n`
exists directly inside `d`. -/
def hasEntry (d : FSDir) (n : String) : Bool :=
  (getFile? d n).isSome || (getSubdir? d n).isSome

/-- Python `str.lower()` restricted to ASCII, which is what `Char.toLower`
implements; all names in the source's tables are ASCII. -/
def lowerStr (s : String) : String :=
  String.mk (s.data.map Char.toLower)

/-- Python `name.startswith('.')`: the first character is a dot. -/
def hiddenName (s : String) : Bool :=
  match s.data with
  | [] => false
  | c :: _ => c == '.'

/-- Python `name.endswith(suffix)`. -/
def endsWithStr (s suffix : String) : Bool :=
  List.isSuffixOf suffix.data s.data

/-! ## Recursive tree enumeration (Python `Path.rglob`) -/

/-- All files anywhere in the subtree of `d` (what `rglob("*")` yields after the
`is_file()` filter).  `rglob` in `pathlib` does not skip hidden entries. -/
def allFiles : FSDir → List FSFile
  | .mk _ _ fs subs => fs ++ (subs.attach.map (fun c => allFiles c.1)).flatten
decreasing_by
  rcases c with ⟨c, hc⟩
  have h := List.sizeOf_lt_of_mem hc
  simp only [FSDir.mk.sizeOf_spec]
  omega

/-- Number of paths yielded by `rglob("*")` (every descendant file *and*
directory). -/
def entryCount : FSDir → Nat
  | .mk _ _ fs subs => fs.length + (subs.attach.map (fun c => 1 + entryCount c.1)).sum
decreasing_by
  rcases c with ⟨c, hc⟩
  have h := List.sizeOf_lt_of_mem hc
  simp only [FSDir.mk.sizeOf_spec]
  omega

/-- Total size in bytes of all files in the subtree: the accumulation loop of
`get_directory_size` (the human-readable float formatting of the result is
presentation-layer and not modelled; the spec's data model calls `size` a byte
count). -/
def dirSizeBytes (d : FSDir) : Nat :=
  (allFiles d).foldl (fun s f => s + f.size) 0

/-! ## Classifier predicates (from `project_manager_gui.py`) -/

/-- The fixed skip-list of `_is_obvious_non_project`. -/
def obviousNonProjects : List String :=
  ["node_modules", "venv", "env", ".venv", ".env", "__pycache__",
   "target", "build", "dist", "out", "bin", "obj", "classes",
   ".git", ".svn", ".hg", ".bzr", ".vscode", ".idea", ".vs",
   "tmp", "temp", "cache", ".cache", "logs", ".logs",
   ".next", ".nuxt", ".gatsby", ".svelte-kit", ".astro",
   "public", "static", "assets", "media", "docs", "documentation"]

/-- `_is_obvious_non_project`: the lower-cased directory name is in the
skip-set. -/
def isObviousNonProject (d : FSDir) : Bool :=
  obviousNonProjects.contains (lowerStr d.name)

/-- The indicator list of `_has_project_indicators`. -/
def projectIndicatorNames : List String :=
  ["package.json", "requirements.txt", "Cargo.toml", "go.mod", "pom.xml",
   "composer.json", "Gemfile", "setup.py", "README.md", "src", "lib", "app"]

/-- `_has_project_indicators`: some indicator entry exists directly in `path`. -/
def hasProjectIndicators (d : FSDir) : Bool :=
  projectIndicatorNames.any (fun n => hasEntry d n)

/-- The non-hidden direct subdirectories: the
`[d for d in p.iterdir() if d.is_dir() and not d.name.startswith('.')]`
comprehension used by both the scanner and `_is_collection_folder`. -/
def nonHiddenSubdirs (d : FSDir) : List FSDir :=
  d.subdirs.filter (fun c => !(hiddenName c.name))

/-- `_is_collection_folder`: at least 3 non-hidden subdirectories and at least
half of them with project indicators.  The source compares
`project_like_count >= len(subdirs) * 0.5` in floats; since `n * 0.5` is exact
for every list length, this is equivalent to `2 * count ≥ n`. -/
def isCollectionFolder (d : FSDir) : Bool :=
  let subdirs := nonHiddenSubdirs d
  if subdirs.length < 3 then false
  else decide (2 * subdirs.countP (fun c => hasProjectIndicators c) ≥ subdirs.length)

/-- The `quick_indicators` list of `_is_likely_project_directory`. -/
def quickIndicators : List String :=
  ["package.json", "requirements.txt", "Cargo.toml", "go.mod", "pom.xml",
   "composer.json", "Gemfile", "setup.py", "README.md"]

/-- The language-file extensions probed by `_is_likely_project_directory`
via `glob('*' + ext)`. -/
def likelyLangExts : List String := [".py", ".js", ".ts", ".java", ".cpp", ".c"]

/-- `path.glob('*' + ext)` is non-empty: some direct entry (file or
subdirectory; `pathlib` glob does not skip hidden names) ends with `ext`. -/
def hasEntryWithSuffix (d : FSDir) (ext : String) : Bool :=
  d.files.any (fun f => endsWithStr f.name ext) || d.subdirs.any (fun c => endsWithStr c.name ext)

/-- `_is_likely_project_directory`: quick indicator file, conventional source
directory, language files in the root, or a collection folder. -/
def isLikelyProjectDirectory (d : FSDir) : Bool :=
  quickIndicators.any (fun n => hasEntry d n)
  || ["src", "lib", "app"].any (fun n => hasEntry d n)
  || likelyLangExts.any (fun ext => hasEntryWithSuffix d ext)
  || isCollectionFolder d

/-- `_quick_detect_project_type`: ordered manifest table, first match wins. -/
def quickDetectProjectType (d : FSDir) : String × String × String :=
  if hasEntry d "package.json" then ("nodejs", "javascript", "node")
  else if hasEntry d "requirements.txt" || hasEntry d "setup.py" then ("python", "python", "flask")
  else if hasEntry d "Cargo.toml" then ("rust", "rust", "cargo")
  else if hasEntry d "go.mod" then ("go", "go", "go")
  else if hasEntry d "pom.xml" then ("java", "java", "maven")
  else if hasEntry d "composer.json" then ("php", "php", "composer")
  else if hasEntry d "Gemfile" then ("ruby", "ruby", "bundler")
  else ("generic", "unknown", "unknown")

/-- The `subproject_indicators` list of `_might_contain_subprojects`. -/
def subprojectIndicators : List String :=
  ["packages", "apps", "libs", "services", "modules", "components",
   "src", "lib", "app", "client", "server", "frontend", "backend"]

/-- The `workspace_files` list of `_might_contain_subprojects`.  Note that the
source includes the plain manifest `package.json` here. -/
def workspaceFiles : List String :=
  ["package.json", "lerna.json", "nx.json", "rush.json"]

/-- `_might_contain_subprojects`: collection folder, or a subproject-indicator
subdirectory containing a non-hidden project-like directory, or a workspace
file entry. -/
def mightContainSubprojects (d : FSDir) : Bool :=
  if isCollectionFolder d then true
  else if subprojectIndicators.any (fun ind =>
      match getSubdir? d ind with
      | some sub => sub.subdirs.any (fun item =>
          !(hiddenName item.name) && hasProjectIndicators item)
      | none => false) then true
  else workspaceFiles.any (fun n => hasEntry d n)

/-! ## Deterministic child ordering

`_load_hierarchical_projects` does `dirs.sort(key=lambda x: x.name.lower())`.
Python's `list.sort` is a *stable* ascending sort; insertion sort below has
exactly that semantics (an element is placed before the first already-sorted
element whose key is not smaller, keeping the original order of equal keys).
Python compares strings lexicographically by code point; `charListLt` is that
comparison on the underlying character lists. -/

/-- Lexicographic comparison of character lists by code point (Python `<` on
`str`). -/
def charListLt : List Char → List Char → Bool
  | [], [] => false
  | [], _ :: _ => true
  | _ :: _, [] => false
  | a :: as, b :: bs =>
    if a = b then charListLt as bs else decide (a.toNat < b.toNat)

/-- The sort key `x.name.lower()` as a character list. -/
def lowerKey (s : String) : List Char :=
  s.data.map Char.toLower

/-- Stable insertion of one directory into a list sorted by lower-cased name. -/
def insertByLower (x : FSDir) : List FSDir → List FSDir
  | [] => [x]
  | y :: ys =>
    if charListLt (lowerKey y.name) (lowerKey x.name) then y :: insertByLower x ys
    else x :: y :: ys

/-- Stable ascending sort by lower-cased name (the `dirs.sort` call). -/
def sortByLower : List FSDir → List FSDir
  | [] => []
  | x :: xs => insertByLower x (sortByLower xs)

/-- The child list the scanner iterates: non-hidden directories, sorted
case-insensitively by name. -/
def sortChildren (ds : List FSDir) : List FSDir :=
  sortByLower (ds.filter (fun c => !(hiddenName c.name)))

/-- Per-level directory cap: `15 if depth == 0 else 8 if depth == 1 else 5`. -/
def capAt (depth : Nat) : Nat :=
  if depth == 0 then 15 else if depth == 1 then 8 else 5

/-- The children actually processed at one level: the loop breaks once
`dirs_scanned` reaches the cap (the counter is incremented after the break
check, so exactly the first `capAt depth` sorted children are iterated). -/
def prepareChildren (depth : Nat) (d : FSDir) : List FSDir :=
  (sortChildren d.subdirs).take (capAt depth)

/-! ## Fingerprint cache (`_get_cache_key`, `_get_cached_project`,
`_cache_project`) -/

/-- The fixed marker-file list (`key_files`) of `_get_cache_key`. -/
def markerFiles : List String :=
  ["package.json", "requirements.txt", "Cargo.toml", "go.mod", "pom.xml",
   "composer.json", "Gemfile", "setup.py", "pyproject.toml", "README.md"]

/-- `file_path.exists()` followed by `stat().st_mtime`: mtime of the entry
named `n` (file or, in the degenerate case, directory). -/
def entryMtime? (d : FSDir) (n : String) : Option Nat :=
  match getFile? d n with
  | some f => some f.mtime
  | none => (getSubdir? d n).map FSDir.mtime

/-- The `max_mtime` accumulation loop of `_get_cache_key`: maximum marker
mtime, starting from 0. -/
def maxMarkerMtime (d : FSDir) : Nat :=
  markerFiles.foldl (fun m n =>
    match entryMtime? d n with
    | some t => max m t
    | none => m) 0

/-- The effective modification time entering the fingerprint: the marker
maximum, or (exactly when that maximum is 0, in particular when no marker
exists) the directory's own mtime. -/
def effectiveMtime (d : FSDir) : Nat :=
  let m := maxMarkerMtime d
  if m = 0 then d.mtime else m

/-- `_get_cache_key` builds `md5(f"{path}_{max_mtime}")`.  The md5 digest of
the combined string is modelled as the injective pairing of its two inputs
(md5 is treated as collision-free; the underscore-joined pre-image determines
the pair since the mtime component is digits-only). -/
def getCacheKey (path : String) (d : FSDir) : String × Nat :=
  (path, effectiveMtime d)

/-- The persisted cache: a flat map from fingerprint to record, modelled as an
association list. -/
abbrev Cache (α : Type) := List ((String × Nat) × α)

/-- Dictionary lookup `cache[key]`. -/
def cacheFind {α : Type} (c : Cache α) (k : String × Nat) : Option α :=
  (c.find? (fun e => e.1 = k)).map (fun e => e.2)

/-- Dictionary assignment `cache[key] = value` (`_cache_project`). -/
def cacheInsert {α : Type} (c : Cache α) (k : String × Nat) (v : α) : Cache α :=
  match c.find? (fun e => e.1 = k) with
  | some _ => c.map (fun e => if e.1 = k then (k, v) else e)
  | none => c ++ [(k, v)]

/-- `_get_cached_project`: recompute the key and look it up.  In the source the
key is computed, looked up, and then recomputed and compared for equality; in
this pure model the recomputation is definitionally equal to the first
computation, so the validity check collapses to the lookup itself. -/
def getCachedProject {α : Type} (path : String) (d : FSDir) (c : Cache α) : Option α :=
  cacheFind c (getCacheKey path d)

/-! ## ProjectRecord and quick analysis -/

/-- The record dictionary produced by the analysis functions, with the
`parent`/`depth`/`path`/`relative_path` keys the scanner adds afterwards.
The `size` value holds the byte count as text (see `dirSizeBytes`). -/
structure ProjectInfo where
  name : String
  path : String
  ptype : String
  language : String
  framework : String
  health : Int
  size : String
  status : String
  modified : String
  parent : Option String := none
  depth : Nat := 0
  relativePath : String := ""
deriving DecidableEq

/-- `_quick_analyze_project`: collection folders get a fixed collection record
(health 75, status `Collection`); anything else gets the quick manifest table,
health 50 and status `Unknown`. -/
def quickAnalyzeProject (path : String) (d : FSDir) : ProjectInfo :=
  if isCollectionFolder d then
    let subdirs := nonHiddenSubdirs d
    let projectCount := subdirs.countP (fun c => hasProjectIndicators c)
    { name := d.name, path := path,
      ptype := "Collection (" ++ toString projectCount ++ " projects)",
      language := "multi-language", framework := "Collection", health := 75,
      size := toString subdirs.length ++ " items",
      status := "Collection", modified := "Unknown" }
  else
    let t := quickDetectProjectType d
    { name := d.name, path := path, ptype := t.1, language := t.2.1,
      framework := t.2.2, health := 50, size := toString (dirSizeBytes d),
      status := "Unknown", modified := "Unknown" }

/-! ## The scanner (`_load_hierarchical_projects`) -/

/-- The configuration the scanner consumes: the scan root (`projects_dir`) and
whether the background-processing checkbox is on. -/
structure ScanConfig where
  projectsDir : String
  bgEnabled : Bool

/-- Scanner state threaded through the walk: `self.projects`,
`self.background_queue`, the (in-place mutated) cache dict, plus two
model-level observation logs — the names a record was created for and the
paths recursed into — and the total number of loop iterations (`examined`,
the sum of the per-call `dirs_scanned` counters). -/
structure ScanAcc where
  projects : List ProjectInfo
  queue : List String
  cache : Cache ProjectInfo
  emittedFor : List String
  recursedInto : List String
  examined : Nat
deriving DecidableEq

/-- The all-empty initial state of `load_projects`. -/
def emptyAcc : ScanAcc :=
  { projects := [], queue := [], cache := [], emittedFor := [],
    recursedInto := [], examined := 0 }

/-- Render the absolute path of a child reached by `segs` from the root. -/
def renderPath (base : String) (segs : List String) : String :=
  segs.foldl (fun s n => s ++ "/" ++ n) base

/-- `str(project_path.relative_to(projects_dir))`. -/
def joinSegs (segs : List String) : String :=
  String.intercalate "/" segs

/-- `_detect_parent_project` as invoked by the scanner: the explicit parent is
returned when given; otherwise the upward walk starts at
`project_path.parent`, which *is* the scanner's `base_path`, so the `while`
condition fails immediately and `None` is returned. -/
def detectParent (parentPath : Option String) : Option String :=
  parentPath

/-- The body of the `if self._is_likely_project_directory(...)` branch up to
(but not including) the recursion decision: cache lookup, quick analysis and
enqueueing on a miss, then the parent/depth/path fields and the append to
`self.projects`.  On a cache hit nothing is enqueued and the cache is left
unchanged. -/
def analyzeChild (cfg : ScanConfig) (segs : List String) (parentPath : Option String)
    (depth : Nat) (acc : ScanAcc) (c : FSDir) : ScanAcc :=
  let cpath := renderPath cfg.projectsDir (segs ++ [c.name])
  let key := getCacheKey cpath c
  let r :=
    match getCachedProject cpath c acc.cache with
    | some info => (info, acc)
    | none =>
      let info := quickAnalyzeProject cpath c
      let accq := if cfg.bgEnabled then { acc with queue := acc.queue ++ [cpath] } else acc
      (info, { accq with cache := cacheInsert accq.cache key info })
  let info := { r.1 with
                parent := detectParent parentPath
                depth := depth
                path := cpath
                relativePath := joinSegs (segs ++ [c.name]) }
  { r.2 with projects := r.2.projects ++ [info], emittedFor := r.2.emittedFor ++ [c.name] }

/-- One iteration of the scanner's `for project_path in dirs` loop, with the
recursive call abstracted as `recur`: count the iteration, skip obvious
non-projects, analyze likely projects, and recurse when
`_might_contain_subprojects` holds. -/
def processChild (cfg : ScanConfig) (segs : List String) (parentPath : Option String)
    (depth : Nat)
    (recur : List String → Option String → Nat → FSDir → ScanAcc → ScanAcc)
    (acc : ScanAcc) (c : FSDir) : ScanAcc :=
  let acc := { acc with examined := acc.examined + 1 }
  if isObviousNonProject c then acc
  else if isLikelyProjectDirectory c then
    let acc2 := analyzeChild cfg segs parentPath depth acc c
    if mightContainSubprojects c then
      let cpath := renderPath cfg.projectsDir (segs ++ [c.name])
      recur (segs ++ [c.name]) (some cpath) (depth + 1) c
        { acc2 with recursedInto := acc2.recursedInto ++ [cpath] }
    else acc2
  else acc

/-- `_load_hierarchical_projects` called *on* directory `d` (`base_path = d`).
The `fuel` argument only drives structural termination: every call chain goes
`depth 0 → 1 → 2 → 3` and the source's entry check `depth > 2` stops the
fourth level, so with the initial fuel 4 (see `scanRoot`) the fuel is never
exhausted before the depth check fires.  `cache_hits`/`cache_misses` are
call-local in the source (passed by value and lost on return) and are not
modelled. -/
def scanInto (cfg : ScanConfig) :
    Nat → List String → Option String → Nat → FSDir → ScanAcc → ScanAcc
  | 0, _, _, _, _, acc => acc
  | fuel + 1, segs, parentPath, depth, d, acc =>
    if depth > 2 then acc
    else
      (prepareChildren depth d).foldl
        (processChild cfg segs parentPath depth
          (fun segs2 par2 depth2 d2 acc2 => scanInto cfg fuel segs2 par2 depth2 d2 acc2))
        acc

/-- `load_projects`: scan the configured root at depth 0 with no parent. -/
def scanRoot (cfg : ScanConfig) (root : FSDir) (acc : ScanAcc) : ScanAcc :=
  scanInto cfg 4 [] none 0 root acc

/-! ## Project status (`get_project_status`, identical in
`project_manager_gui.py` and `project_manager.py`) -/

/-- `(datetime.now() - last_modified).days`: floor division of the elapsed
seconds, matching `timedelta.days` which floors towards minus infinity. -/
def daysSince (now mtime : Nat) : Int :=
  ((now : Int) - (mtime : Int)).fdiv 86400

/-- `get_project_status`: age thresholds 7 / 30 / 90 days. -/
def getProjectStatus (now mtime : Nat) : String :=
  if daysSince now mtime < 7 then "Active"
  else if daysSince now mtime < 30 then "Recent"
  else if daysSince now mtime < 90 then "Inactive"
  else "Stale"

/-! ## Health scorer of `project_manager.py` (`calculate_health_score`) -/

/-- The CLI health scorer: five subtractive rules starting from 100, then
`max(0, score)`.  The large-file rule fires when some file in the subtree
exceeds 10 MB. -/
def pmCalculateHealthScore (d : FSDir) : Int :=
  let score : Int := 100
  let score := if hasEntry d "README.md" then score else score - 10
  let score := if hasEntry d ".gitignore" then score else score - 5
  let score := if ["tests", "test", "__tests__", "spec"].any (fun n => hasEntry d n)
               then score else score - 15
  let score := if ["docs", "documentation", "doc"].any (fun n => hasEntry d n)
               then score else score - 5
  let score := if (allFiles d).any (fun f => f.size > 10 * 1024 * 1024)
               then score - 10 else score
  max 0 score

/-! ## Health scorer of `project_manager_gui.py` (`calculate_health_score`)

The GUI scorer consults `_detect_languages`,
`_check_cross_language_integration` and six per-language helper scores.
Those collaborators are taken as *parameters* of the model
(`languages`, `crossLang`, `pyH` … `bashH`); every theorem below is proved
for all of their values, so the source's concrete helpers are covered as
instances.  The helpers all return non-negative integers, hence the `Nat`
parameter type. -/

/-- `test_dirs` of the GUI scorer. -/
def testDirNames : List String := ["tests", "test", "__tests__", "spec", "test_", "tests_"]

/-- `doc_dirs` of the GUI scorer. -/
def docDirNames : List String := ["docs", "documentation", "doc", "wiki"]

/-- `doc_files` of the GUI scorer. -/
def docFileNames : List String :=
  ["CHANGELOG.md", "CONTRIBUTING.md", "LICENSE", "LICENSE.txt", "LICENSE.md"]

/-- `security_files` of the GUI scorer. -/
def securityFiles : List String := [".env.example", "security.md", "SECURITY.md"]

/-- `secret_patterns` of the GUI scorer. -/
def secretPatterns : List String := ["password", "secret", "key", "token", "api_key"]

/-- Does `pat` occur as a contiguous sublist of `s`? -/
def containsList (pat : List Char) : List Char → Bool
  | [] => pat.isEmpty
  | c :: rest => List.isPrefixOf pat (c :: rest) || containsList pat rest

/-- Python `pattern in content`. -/
def containsStr (s pat : String) : Bool :=
  containsList pat.data s.data

/-- The `dep_files` table (identical in `calculate_health_score` and
`_has_dependency_files`). -/
def depFilesFor (lang : String) : Option (List String) :=
  if lang = "python" then some ["requirements.txt", "pyproject.toml", "setup.py", "Pipfile"]
  else if lang = "javascript" then some ["package.json", "yarn.lock", "package-lock.json"]
  else if lang = "rust" then some ["Cargo.toml"]
  else if lang = "go" then some ["go.mod", "go.sum"]
  else if lang = "java" then some ["pom.xml", "build.gradle", "gradle.properties"]
  else if lang = "bash" then some ["requirements.txt", "dependencies.txt", "packages.txt", "install.sh"]
  else none

/-- `config_files` of the GUI scorer. -/
def configFileNames : List String :=
  [".editorconfig", ".gitattributes", "docker-compose.yml", "Dockerfile"]

/-- `lint_files` of the GUI scorer. -/
def lintFileNames : List String :=
  [".eslintrc", ".eslintrc.js", ".eslintrc.json", ".pylintrc", "pyproject.toml"]

/-- `ci_dirs` of the GUI scorer. -/
def ciDirNames : List String := [".github", ".gitlab-ci", ".circleci", ".travis", ".jenkins"]

/-- `src_dirs` of the GUI scorer. -/
def srcDirNames : List String := ["src", "lib", "app", "source"]

/-- `build_files` of the GUI scorer. -/
def buildFileNames : List String := ["Makefile", "CMakeLists.txt", "build.sh", "compile.sh"]

/-- The multi-language loop `score += self._check_X_health(...) // 2` over the
detected languages (`//` on the helpers' non-negative results is `Nat`
division). -/
def langHealthHalf (languages : List String)
    (pyH jsH rustH goH javaH bashH : Nat) : Nat :=
  languages.foldl (fun s lang =>
    if lang = "python" then s + pyH / 2
    else if lang = "javascript" then s + jsH / 2
    else if lang = "rust" then s + rustH / 2
    else if lang = "go" then s + goH / 2
    else if lang = "java" then s + javaH / 2
    else if lang = "bash" then s + bashH / 2
    else s) 0

/-- The single-language branch `score += self._check_X_health(...)`. -/
def langHealthFull (language : String)
    (pyH jsH rustH goH javaH bashH : Nat) : Nat :=
  if language = "python" then pyH
  else if language = "javascript" then jsH
  else if language = "rust" then rustH
  else if language = "go" then goH
  else if language = "java" then javaH
  else if language = "bash" then bashH
  else 0

/-- The GUI `calculate_health_score`, rule for rule in source order.

One rule deserves a note: the source computes
`has_test_files = any(project_path.glob(p) for p in test_files)`, an `any`
over *generator objects* (one per pattern), which are always truthy in
Python — so `has_test_files` is constantly `True` and the −15 testing
penalty can only ever fire through `has_tests`; since the conjunction
requires both to be false, it never fires at all.  The model keeps the
constant. -/
def calculateHealthScore (d : FSDir) (language : String) (now : Nat)
    (languages : List String) (crossLang : Bool)
    (pyH jsH rustH goH javaH bashH : Nat) : Int :=
  let score : Int := 100
  let isMulti := languages.length > 1
  let score := if hasEntry d "README.md" then score else score - 10
  let score := if hasEntry d ".gitignore" then score else score - 5
  let hasTests := testDirNames.any (fun n => hasEntry d n)
  let hasTestFiles := true
  let score := if !hasTests && !hasTestFiles then score - 15 else score
  let hasDocs := docDirNames.any (fun n => hasEntry d n)
  let hasDocFiles := docFileNames.any (fun n => hasEntry d n)
  let score := if !hasDocs && !hasDocFiles then score - 5 else score
  let score :=
    if hasEntry d ".git" then
      match getSubdir? d ".git" with
      | some g =>
        match getSubdir? g "hooks" with
        | some h => if h.files.length + h.subdirs.length > 0 then score + 2 else score
        | none => score
      | none => score
    else score - 10
  let score := if securityFiles.any (fun n => hasEntry d n) then score else score - 3
  let hasSecrets := (allFiles d).any (fun f =>
    endsWithStr f.name ".py" && secretPatterns.any (fun p => containsStr (lowerStr f.content) p))
  let score := if hasSecrets then score - 5 else score
  let score :=
    if isMulti then
      let s2 := score + 5
      if crossLang then s2 + 3 else s2
    else score
  let score :=
    if isMulti then score + (langHealthHalf languages pyH jsH rustH goH javaH bashH : Int)
    else score + (langHealthFull language pyH jsH rustH goH javaH bashH : Int)
  let score :=
    if isMulti then
      let missing : Int := languages.countP (fun lang =>
        match depFilesFor lang with
        | some fs => !(fs.any (fun n => hasEntry d n))
        | none => false)
      if missing > 0 then score - missing * 4 else score
    else
      match depFilesFor language with
      | some fs => if fs.any (fun n => hasEntry d n) then score else score - 8
      | none => score
  let score := if configFileNames.any (fun n => hasEntry d n) then score + 3 else score
  let score := if lintFileNames.any (fun n => hasEntry d n) then score + 2 else score
  let score := if ciDirNames.any (fun n => hasEntry d n) then score + 5 else score
  let score := if srcDirNames.any (fun n => hasEntry d n) then score + 2 else score
  let score := if buildFileNames.any (fun n => hasEntry d n) then score + 2 else score
  let recentCount := (allFiles d).countP (fun f =>
    !(hiddenName f.name) && decide (daysSince now f.mtime < 30))
  let score := if recentCount ≥ 3 then score + 2 else score
  let total := entryCount d
  let score := if total < 3 then score - 5 else if total > 1000 then score - 2 else score
  max 0 (min 100 score)

/-! ## Touching marker files (for the cache-invalidation claims)

`touchAt t addr fname m` sets the mtime of the file `fname` inside the
directory reached from `t` by the component path `addr` — the model of
`os.utime` on one file.  Only that directory's file list changes; every
other node keeps its files and its own mtime. -/

/-- Set the mtime of the directly-contained file named `fname`. -/
def touchFileIn (d : FSDir) (fname : String) (t : Nat) : FSDir :=
  .mk d.name d.mtime
    (d.files.map (fun f => if f.name = fname then { f with mtime := t } else f))
    d.subdirs

/-- Apply `g` to the first subdirectory named `seg` (sibling names are unique
on a real filesystem; `getSubdir?` takes the first match, and so does this). -/
def updateSubdirNamed (g : FSDir → FSDir) : List FSDir → String → List FSDir
  | [], _ => []
  | c :: cs, seg => if c.name = seg then g c :: cs else c :: updateSubdirNamed g cs seg

/-- Touch `fname` in the directory at component path `addr` below `t`. -/
def touchAt (t : FSDir) (addr : List String) (fname : String) (m : Nat) : FSDir :=
  match addr with
  | [] => touchFileIn t fname m
  | seg :: rest =>
    .mk t.name t.mtime t.files
      (updateSubdirNamed (fun c => touchAt c rest fname m) t.subdirs seg)

/-- The directory at component path `addr` below `t`, if it exists. -/
def dirAt? (t : FSDir) (addr : List String) : Option FSDir :=
  match addr with
  | [] => some t
  | seg :: rest =>
    match getSubdir? t seg with
    | some c => dirAt? c rest
    | none => none

/-! ## Derived quantities used by the claims -/

/-- Manifest files in the sense of the spec glossary: the quick-indicator
table without `README.md` (a README is documentation, not a package
manifest). -/
def manifestNames : List String :=
  ["package.json", "requirements.txt", "Cargo.toml", "go.mod", "pom.xml",
   "composer.json", "Gemfile", "setup.py"]

/-- Upper bound on the number of loop iterations a single
`_load_hierarchical_projects` call at `depth` can cause, children of children
included: the per-level cap times (one iteration plus the budget of the next
level), zero beyond the depth guard. -/
def levelBudget (depth : Nat) : Nat :=
  if depth > 2 then 0 else capAt depth * (1 + levelBudget (depth + 1))
termination_by 3 - depth
decreasing_by
  simp_wf
  omega

/-! ## Concrete fixtures used by witnesses and counterexamples -/

/-- A plain file fixture. -/
def exFile (n : String) (t : Nat) : FSFile :=
  { name := n, mtime := t, size := 10, content := "" }

/-- Scan configuration fixture with background processing enabled. -/
def exCfg : ScanConfig := { projectsDir := "/p", bgEnabled := true }

/-- A project directory holding only a README, upper-case name. -/
def exAbcU : FSDir := .mk "Abc" 5 [exFile "README.md" 1] []

/-- A project directory holding only a README, lower-case name. -/
def exAbcL : FSDir := .mk "abc" 5 [exFile "README.md" 1] []

/-- A directory holding exactly one manifest, `package.json`, and nothing
else. -/
def exPkgOnly : FSDir := .mk "app1" 3 [exFile "package.json" 5] []

/-- Scan root containing only `exPkgOnly`. -/
def exRootPkg : FSDir := .mk "root" 1 [] [exPkgOnly]

/-- A directory holding exactly one manifest, `requirements.txt`, and nothing
else. -/
def exPyProj : FSDir := .mk "pyproj" 3 [exFile "requirements.txt" 5] []

/-- Sub-project fixtures: three sibling directories each with a README. -/
def exS1 : FSDir := .mk "s1" 1 [exFile "README.md" 1] []

/-- Second sub-project fixture. -/
def exS2 : FSDir := .mk "s2" 1 [exFile "README.md" 1] []

/-- Third sub-project fixture. -/
def exS3 : FSDir := .mk "s3" 1 [exFile "README.md" 1] []

/-- A collection-shaped directory without a manifest of its own. -/
def exColl : FSDir := .mk "coll" 2 [] [exS1, exS2, exS3]

/-- A collection-shaped directory that *also* has a `package.json` manifest at
its own root. -/
def exCollManifest : FSDir := .mk "collm" 2 [exFile "package.json" 4] [exS1, exS2, exS3]

/-- A README-only project used for the cache-hit scenario. -/
def exProj : FSDir := .mk "proj" 7 [exFile "README.md" 9] []

/-- Scan root containing only `exProj`. -/
def exRootProj : FSDir := .mk "root" 1 [] [exProj]

/-- A cache holding the quick-analysis record of `exProj` under its current
fingerprint (a quick-only cache entry). -/
def exCacheQuick : Cache ProjectInfo :=
  cacheInsert [] (getCacheKey "/p/proj" exProj) (quickAnalyzeProject "/p/proj" exProj)

/-- A directory with two marker files of different mtimes (10 and 20). -/
def exFpA : FSDir := .mk "fp" 2 [exFile "package.json" 10, exFile "README.md" 20] []

/-- `exFpA` after touching the non-maximal marker `package.json` to mtime 15:
the marker maximum is still 20. -/
def exFpATouched : FSDir := touchFileIn exFpA "package.json" 15

/-- A hidden directory fixture. -/
def exHidden : FSDir := .mk ".hidden" 1 [exFile "README.md" 1] []

/-- The project-indicators predicate as the spec words it ("manifest file, or
one of a small set of conventional source directories, or a README/`.git`"):
the code's `_has_project_indicators` table *plus* `.git`.  This definition
follows the spec's words, not the source, and exists only to be compared with
the source's `hasProjectIndicators`, which checks no `.git` entry. -/
def specProjectIndicators (d : FSDir) : Bool :=
  (manifestNames ++ ["src", "lib", "app", "README.md", ".git"]).any (fun n => hasEntry d n)

/-- A directory whose only content is a `.git` repository directory: a
project in the spec's eyes, not in the code's. -/
def exGitSub1 : FSDir := .mk "g1" 1 [] [.mk ".git" 1 [] []]

/-- Second `.git`-only directory fixture. -/
def exGitSub2 : FSDir := .mk "g2" 1 [] [.mk ".git" 1 [] []]

/-- Third `.git`-only directory fixture. -/
def exGitSub3 : FSDir := .mk "g3" 1 [] [.mk ".git" 1 [] []]

/-- A directory with no manifest of its own and three subdirectories that are
project-like only through their `.git` entries. -/
def exGitColl : FSDir := .mk "gcoll" 2 [] [exGitSub1, exGitSub2, exGitSub3]

/-! # Theorems -/

/-- Accessor/constructor reduction for directory names. -/
@[simp] theorem FSDir.name_mk (n : String) (m : Nat) (fs : List FSFile) (ds : List FSDir) :
    (FSDir.mk n m fs ds).name = n := rfl

/-- Accessor/constructor reduction for directory mtimes. -/
@[simp] theorem FSDir.mtime_mk (n : String) (m : Nat) (fs : List FSFile) (ds : List FSDir) :
    (FSDir.mk n m fs ds).mtime = m := rfl

/-- Accessor/constructor reduction for file lists. -/
@[simp] theorem FSDir.files_mk (n : String) (m : Nat) (fs : List FSFile) (ds : List FSDir) :
    (FSDir.mk n m fs ds).files = fs := rfl

/-- Accessor/constructor reduction for subdirectory lists. -/
@[simp] theorem FSDir.subdirs_mk (n : String) (m : Nat) (fs : List FSFile) (ds : List FSDir) :
    (FSDir.mk n m fs ds).subdirs = ds := rfl

/-! ## C1 — the health score is always an integer in [0, 100] -/

/-- C1: for every project directory (including ones with zero files) and every
value of the language-detection and per-language-helper collaborators, the GUI
health scorer `calculate_health_score` and the CLI health scorer
`calculate_health_score` of `project_manager.py` both return an integer in
[0, 100].  The GUI scorer ends in an explicit clamp; the CLI scorer starts at
100 and only ever subtracts before its `max(0, ·)`. -/
theorem c1_health_score_range (d : FSDir) (language : String) (now : Nat)
    (languages : List String) (crossLang : Bool) (pyH jsH rustH goH javaH bashH : Nat) :
    (0 ≤ calculateHealthScore d language now languages crossLang pyH jsH rustH goH javaH bashH
      ∧ calculateHealthScore d language now languages crossLang pyH jsH rustH goH javaH bashH ≤ 100)
    ∧ (0 ≤ pmCalculateHealthScore d ∧ pmCalculateHealthScore d ≤ 100) := by
  constructor
  · have h : ∀ s : Int, 0 ≤ max 0 (min 100 s) ∧ max 0 (min 100 s) ≤ 100 := by
      intro s
      constructor <;> omega
    exact h _
  · constructor
    · have h : ∀ s : Int, 0 ≤ max 0 s := fun s => le_max_left 0 s
      exact h _
    · simp only [pmCalculateHealthScore]
      split_ifs <;> omega

/-! ## C9 — record status values

The claim says *every* ProjectRecord has a status in
{Active, Recent, Inactive, Stale}.  That is false: `_quick_analyze_project`,
which produces the records the scanner emits, sets `status` to `"Unknown"`
(or `"Collection"` for collection folders); only the full analysis pass uses
`get_project_status`, whose values are the four expected ones. -/

/-- C9 counterexample: a scan over a one-project tree emits a record whose
status is `"Unknown"`, which is not one of Active/Recent/Inactive/Stale. -/
theorem c9_counterexample :
    (scanRoot exCfg exRootProj emptyAcc).projects.map (fun p => p.status) = ["Unknown"]
    ∧ "Unknown" ∉ (["Active", "Recent", "Inactive", "Stale"] : List String) := by
  constructor
  · rfl
  · decide

/-- C9 amended: `get_project_status` (used by the full-analysis pass) returns
exactly one of Active/Recent/Inactive/Stale according to the 7/30/90-day
thresholds on the directory's last-modification age, while the records
produced by quick analysis carry status `"Unknown"` (`"Collection"` for
collection folders) until full analysis replaces them. -/
theorem c9_amended (now mtime : Nat) (path : String) (d : FSDir) :
    ((daysSince now mtime < 7 → getProjectStatus now mtime = "Active")
     ∧ (7 ≤ daysSince now mtime → daysSince now mtime < 30 → getProjectStatus now mtime = "Recent")
     ∧ (30 ≤ daysSince now mtime → daysSince now mtime < 90 → getProjectStatus now mtime = "Inactive")
     ∧ (90 ≤ daysSince now mtime → getProjectStatus now mtime = "Stale"))
    ∧ (quickAnalyzeProject path d).status
      = (if isCollectionFolder d then "Collection" else "Unknown") := by
  constructor
  · refine ⟨fun h1 => ?_, fun h1 h2 => ?_, fun h1 h2 => ?_, fun h1 => ?_⟩ <;>
      · simp only [getProjectStatus]
        split_ifs <;> first | rfl | omega
  · by_cases h : isCollectionFolder d <;> simp [quickAnalyzeProject, h]

/-- Witness for the amended C9 at concrete inputs: 10 days of age yields
`"Recent"`, and the quick record of `exProj` carries `"Unknown"`. -/
theorem c9_amended_witness :
    getProjectStatus 864000 0 = "Recent"
    ∧ (quickAnalyzeProject "/p/proj" exProj).status = "Unknown" := by
  constructor
  · exact (c9_amended 864000 0 "/p/proj" exProj).1.2.1 (by decide) (by decide)
  · exact ((c9_amended 864000 0 "/p/proj" exProj).2).trans (by rfl)

/-! ## C3 — collection detection thresholds

The thresholds (≥ 3 non-hidden subdirectories, ≥ 50 % project-like) are
exactly as claimed, but the claim's project-indicators predicate — "manifest
file, conventional source directory, README, **or `.git`**", following the
spec — is not the code's: `_has_project_indicators` checks manifests,
`src`/`lib`/`app` and `README.md` but no `.git` entry.  A directory whose
subdirectories are project-like only through `.git` is *not* classified as a
collection, refuting the claim as stated. -/

/-- The quick manifest table never yields the framework tag `"Collection"`. -/
theorem quickDetectProjectType_framework_ne_collection (d : FSDir) :
    (quickDetectProjectType d).2.2 ≠ "Collection" := by
  simp only [quickDetectProjectType]
  split_ifs <;> decide

/-- C3 counterexample: `exGitColl` has no manifest of its own and three
non-hidden subdirectories, every one of which satisfies the claim's
project-indicators predicate (via `.git`), yet the classifier does not
classify it as a collection — the code's predicate counts none of them. -/
theorem c3_counterexample :
    (∀ n ∈ manifestNames, hasEntry exGitColl n = false)
    ∧ (nonHiddenSubdirs exGitColl).length = 3
    ∧ (∀ c ∈ nonHiddenSubdirs exGitColl, specProjectIndicators c = true)
    ∧ (∀ c ∈ nonHiddenSubdirs exGitColl, hasProjectIndicators c = false)
    ∧ (quickAnalyzeProject "/p/gcoll" exGitColl).framework ≠ "Collection" := by
  refine ⟨by decide, rfl, by decide, by decide, by decide⟩

/-- C3 amended: with the *code's* project-indicators predicate
`_has_project_indicators` (manifest file, `src`/`lib`/`app`, or `README.md` —
no `.git` check), a directory with no manifest of its own, at least 3
non-hidden subdirectories, and at least 50 % of them project-like is
classified as a collection; one with fewer than 3 subdirectories or less than
50 % project-like subdirectories is not. -/
theorem c3_collection_classification (path : String) (d : FSDir)
    (hm : ∀ n ∈ manifestNames, hasEntry d n = false) :
    (3 ≤ (nonHiddenSubdirs d).length →
      (nonHiddenSubdirs d).length ≤
        2 * (nonHiddenSubdirs d).countP (fun c => hasProjectIndicators c) →
      (quickAnalyzeProject path d).framework = "Collection")
    ∧ ((nonHiddenSubdirs d).length < 3 ∨
        2 * (nonHiddenSubdirs d).countP (fun c => hasProjectIndicators c) <
          (nonHiddenSubdirs d).length →
      (quickAnalyzeProject path d).framework ≠ "Collection") := by
  constructor
  · intro h3 h50
    have hcoll : isCollectionFolder d = true := by
      simp only [isCollectionFolder]
      rw [if_neg (by omega)]
      exact decide_eq_true h50
    simp [quickAnalyzeProject, hcoll]
  · intro hbad
    have hcoll : isCollectionFolder d = false := by
      simp only [isCollectionFolder]
      by_cases hlen : (nonHiddenSubdirs d).length < 3
      · rw [if_pos hlen]
      · rw [if_neg hlen]
        simp only [decide_eq_false_iff_not]
        rcases hbad with h | h <;> omega
    simp only [quickAnalyzeProject, hcoll, Bool.false_eq_true, if_false]
    exact quickDetectProjectType_framework_ne_collection d

/-- Witness for C3 at concrete inputs: `exColl` (3 README-bearing
subdirectories, no manifest) is classified as a collection, and the
manifest-free single directory `exAbcU` is not. -/
theorem c3_witness :
    (quickAnalyzeProject "/p/coll" exColl).framework = "Collection"
    ∧ (quickAnalyzeProject "/p/Abc" exAbcU).framework ≠ "Collection" := by
  constructor
  · exact (c3_collection_classification "/p/coll" exColl (by decide)).1 (by decide) (by decide)
  · exact (c3_collection_classification "/p/Abc" exAbcU (by decide)).2 (by decide)

/-! ## C4 — order of manifest check versus collection check

The claim says manifest presence is checked *before* collection detection, so
a directory with a root manifest is always classified as a single project.
The source does the opposite: `_quick_analyze_project` tests
`_is_collection_folder` first, and `_is_collection_folder` does not look at
the directory's own manifest. -/

/-- C4 counterexample: `exCollManifest` has `package.json` at its own root and
three project-like subdirectories; it is classified as a collection, not as a
nodejs single project. -/
theorem c4_counterexample :
    hasEntry exCollManifest "package.json" = true
    ∧ (nonHiddenSubdirs exCollManifest).length = 3
    ∧ (quickAnalyzeProject "/p/collm" exCollManifest).framework = "Collection"
    ∧ (quickAnalyzeProject "/p/collm" exCollManifest).ptype ≠ "nodejs" := by
  refine ⟨rfl, rfl, rfl, ?_⟩
  decide

/-- C4 amended: collection detection is checked first.  A collection-shaped
directory is classified as a collection even when it has a manifest at its own
root; only a directory that is not collection-shaped is classified as a single
project by its manifest (here: `package.json` → nodejs/javascript/node). -/
theorem c4_amended (path : String) (d : FSDir) :
    (isCollectionFolder d = true →
      (quickAnalyzeProject path d).framework = "Collection")
    ∧ (isCollectionFolder d = false → hasEntry d "package.json" = true →
      (quickAnalyzeProject path d).ptype = "nodejs"
      ∧ (quickAnalyzeProject path d).language = "javascript"
      ∧ (quickAnalyzeProject path d).framework = "node") := by
  constructor
  · intro hcoll
    simp [quickAnalyzeProject, hcoll]
  · intro hcoll hpkg
    simp [quickAnalyzeProject, hcoll, quickDetectProjectType, hpkg]

/-- Witness for the amended C4 at concrete inputs: the manifest-bearing
collection `exCollManifest` goes to the collection branch, and the plain
`package.json` project `exPkgOnly` goes to the nodejs branch. -/
theorem c4_amended_witness :
    (quickAnalyzeProject "/p/collm" exCollManifest).framework = "Collection"
    ∧ (quickAnalyzeProject "/p/app1" exPkgOnly).ptype = "nodejs" := by
  constructor
  · exact (c4_amended "/p/collm" exCollManifest).1 (by rfl)
  · exact ((c4_amended "/p/app1" exPkgOnly).2 (by rfl) (by rfl)).1

/-! ## C5 — cache hits versus the background queue

The claim says a cache entry produced by quick analysis only must still be
queued for full analysis exactly once.  The source has no `analysisStage`
field at all: a cache hit — quick or not — bypasses the append to
`background_queue`, which happens only on a cache miss. -/

/-- C5 counterexample: the cache holds the quick-analysis record of `exProj`
(recognizably quick: status `"Unknown"`, the placeholder health), background
processing is enabled, the scan hits that entry — and the background queue
stays empty instead of receiving the directory once. -/
theorem c5_counterexample :
    (getCachedProject "/p/proj" exProj exCacheQuick).isSome = true
    ∧ (quickAnalyzeProject "/p/proj" exProj).status = "Unknown"
    ∧ exCfg.bgEnabled = true
    ∧ (scanRoot exCfg exRootProj { emptyAcc with cache := exCacheQuick }).queue = [] := by
  refine ⟨rfl, rfl, rfl, by rfl⟩

/-- C5 amended: a cache hit is never enqueued for background analysis,
whatever analysis stage produced the cached record (records carry no stage
field); a cache miss is enqueued exactly once when background processing is
enabled, and not at all when it is disabled. -/
theorem c5_amended (cfg : ScanConfig) (segs : List String) (par : Option String)
    (depth : Nat) (acc : ScanAcc) (c : FSDir) :
    ((getCachedProject (renderPath cfg.projectsDir (segs ++ [c.name])) c acc.cache).isSome = true →
      (analyzeChild cfg segs par depth acc c).queue = acc.queue)
    ∧ (getCachedProject (renderPath cfg.projectsDir (segs ++ [c.name])) c acc.cache = none →
      cfg.bgEnabled = true →
      (analyzeChild cfg segs par depth acc c).queue
        = acc.queue ++ [renderPath cfg.projectsDir (segs ++ [c.name])])
    ∧ (getCachedProject (renderPath cfg.projectsDir (segs ++ [c.name])) c acc.cache = none →
      cfg.bgEnabled = false →
      (analyzeChild cfg segs par depth acc c).queue = acc.queue) := by
  refine ⟨fun h => ?_, fun h hbg => ?_, fun h hbg => ?_⟩
  · rcases hq : getCachedProject (renderPath cfg.projectsDir (segs ++ [c.name])) c acc.cache with
      _ | info
    · rw [hq] at h
      simp at h
    · simp [analyzeChild, hq]
  · simp [analyzeChild, h, hbg]
  · simp [analyzeChild, h, hbg]

/-- Witness for the amended C5 at concrete inputs: with the quick record of
`exProj` cached, processing `exProj` leaves the queue unchanged; without it,
the path is enqueued once. -/
theorem c5_amended_witness :
    (analyzeChild exCfg [] none 0 { emptyAcc with cache := exCacheQuick } exProj).queue = []
    ∧ (analyzeChild exCfg [] none 0 emptyAcc exProj).queue = ["/p/proj"] := by
  constructor
  · exact ((c5_amended exCfg [] none 0 { emptyAcc with cache := exCacheQuick } exProj).1
      (by rfl)).trans rfl
  · exact ((c5_amended exCfg [] none 0 emptyAcc exProj).2.1 (by rfl) (by rfl)).trans rfl

/-! ## C2 — when the scanner recurses into a project

The claim says a directory with exactly one manifest and no multi-package
indicators is never recursed into.  The recursion gate is
`_might_contain_subprojects`, whose `workspace_files` list contains the plain
manifest `package.json` — so a directory whose single manifest is
`package.json` *is* recursed into. -/

/-- Cache lookup, analysis and record append never touch the recursion log,
the iteration counter, and append exactly the processed child's name to the
emission log. -/
theorem analyzeChild_fields (cfg : ScanConfig) (segs : List String) (par : Option String)
    (depth : Nat) (acc : ScanAcc) (c : FSDir) :
    (analyzeChild cfg segs par depth acc c).recursedInto = acc.recursedInto
    ∧ (analyzeChild cfg segs par depth acc c).examined = acc.examined
    ∧ (analyzeChild cfg segs par depth acc c).emittedFor = acc.emittedFor ++ [c.name] := by
  rcases hq : getCachedProject (renderPath cfg.projectsDir (segs ++ [c.name])) c acc.cache with
    _ | info
  · simp only [analyzeChild, hq]
    split_ifs <;> simp
  · simp [analyzeChild, hq]

/-- C2 counterexample: `exPkgOnly` holds exactly one manifest —
`package.json` — and nothing else (no subdirectories at all, hence no
workspace tooling files, no package/app/lib/service directories, no second
manifest anywhere beneath it), yet the scan recurses into it. -/
theorem c2_counterexample :
    exPkgOnly.files.map (fun f => f.name) = ["package.json"]
    ∧ exPkgOnly.subdirs = []
    ∧ manifestNames.countP (fun n => hasEntry exPkgOnly n) = 1
    ∧ (scanRoot exCfg exRootPkg emptyAcc).recursedInto = ["/p/app1"] := by
  refine ⟨rfl, rfl, by decide, by rfl⟩

/-- C2 amended: a directory with exactly one manifest that is *not*
`package.json`, no workspace files (`package.json`, `lerna.json`, `nx.json`,
`rush.json`), no subproject-indicator subdirectory (packages, apps, libs,
services, modules, components, src, lib, app, client, server, frontend,
backend) containing a non-hidden project-like child, and which is not itself
collection-shaped, is never recursed into by the scanner. -/
theorem c2_amended (d : FSDir)
    (hm : manifestNames.countP (fun n => hasEntry d n) = 1)
    (hws : ∀ n ∈ workspaceFiles, hasEntry d n = false)
    (hcoll : isCollectionFolder d = false)
    (hind : ∀ name ∈ subprojectIndicators, ∀ sub ∈ d.subdirs, sub.name = name →
      ∀ item ∈ sub.subdirs,
        hiddenName item.name = true ∨ hasProjectIndicators item = false) :
    mightContainSubprojects d = false
    ∧ ∀ (cfg : ScanConfig) (segs : List String) (par : Option String) (depth : Nat)
        (recur : List String → Option String → Nat → FSDir → ScanAcc → ScanAcc)
        (acc : ScanAcc),
        (processChild cfg segs par depth recur acc d).recursedInto = acc.recursedInto := by
  have hany : (subprojectIndicators.any (fun ind =>
      match getSubdir? d ind with
      | some sub => sub.subdirs.any (fun item =>
          !(hiddenName item.name) && hasProjectIndicators item)
      | none => false)) = false := by
    rw [List.any_eq_false]
    intro ind hin
    rcases hs : getSubdir? d ind with _ | sub
    · simp
    · have hs2 := hs
      simp only [getSubdir?] at hs2
      have hsubmem : sub ∈ d.subdirs := List.mem_of_find?_eq_some hs2
      have hpred := List.find?_some hs2
      have hsubname : sub.name = ind := by simpa using hpred
      show (sub.subdirs.any (fun item =>
        !(hiddenName item.name) && hasProjectIndicators item)) ≠ true
      rw [ne_eq, Bool.not_eq_true, List.any_eq_false]
      intro item hitem
      rcases hind ind hin sub hsubmem hsubname item hitem with h | h <;> simp [h]
  have hwsany : (workspaceFiles.any (fun n => hasEntry d n)) = false := by
    rw [List.any_eq_false]
    intro n hn
    simp [hws n hn]
  have hmight : mightContainSubprojects d = false := by
    simp only [mightContainSubprojects, hcoll, Bool.false_eq_true, if_false, hany, hwsany]
  refine ⟨hmight, fun cfg segs par depth recur acc => ?_⟩
  simp only [processChild, hmight, Bool.false_eq_true, if_false]
  split_ifs with h1 h2
  · rfl
  · exact (analyzeChild_fields cfg segs par depth _ d).1
  · rfl

/-- Witness for the amended C2 at a concrete input: the single-manifest
Python project `exPyProj` is not recursed into. -/
theorem c2_amended_witness :
    mightContainSubprojects exPyProj = false
    ∧ (processChild exCfg [] none 0 (fun _ _ _ _ a => a) emptyAcc exPyProj).recursedInto = [] := by
  have h := c2_amended exPyProj (by decide) (by decide) (by rfl) (by decide)
  exact ⟨h.1, (h.2 exCfg [] none 0 (fun _ _ _ _ a => a) emptyAcc).trans rfl⟩

/-! ## C6 — fingerprints and cache invalidation

The fingerprint is indeed a hash of the path and the maximal marker mtime
(directory mtime as fallback), and it is perfectly local to its directory.
But the claim's consequence is too strong: changing the mtime of a marker
file only changes the fingerprint when it changes the *maximum* over the
marker set — touching a non-maximal marker leaves the fingerprint (and hence
the cache entry) untouched. -/

/-- C6 counterexample: `package.json` (a marker file) is touched from mtime
10 to 15 while `README.md` stays at 20; the fingerprint does not change. -/
theorem c6_counterexample :
    (getFile? exFpA "package.json").map FSFile.mtime = some 10
    ∧ (getFile? exFpATouched "package.json").map FSFile.mtime = some 15
    ∧ getCacheKey "/p/fp" exFpATouched = getCacheKey "/p/fp" exFpA := by
  refine ⟨rfl, rfl, rfl⟩

/-- `touchAt` preserves the name of the directory it is applied to. -/
theorem touchAt_name (c : FSDir) (addr : List String) (f : String) (m : Nat) :
    (touchAt c addr f m).name = c.name := by
  cases addr <;> rfl

/-- `touchAt` preserves the own-mtime of the directory it is applied to. -/
theorem touchAt_mtime (c : FSDir) (addr : List String) (f : String) (m : Nat) :
    (touchAt c addr f m).mtime = c.mtime := by
  cases addr <;> rfl

/-- Updating the first `a`-named element does not affect lookups for other
names, provided the update preserves names. -/
theorem find?_updateSubdirNamed_ne (g : FSDir → FSDir)
    (hn : ∀ c, (g c).name = c.name) (cs : List FSDir) (a s : String) (hsa : s ≠ a) :
    List.find? (fun c => c.name = s) (updateSubdirNamed g cs a)
      = List.find? (fun c => c.name = s) cs := by
  induction cs with
  | nil => rfl
  | cons c cs ih =>
    simp only [updateSubdirNamed]
    by_cases hca : c.name = a
    · rw [if_pos hca]
      rw [List.find?_cons_of_neg _ (by simp [hn c, hca]; exact Ne.symm hsa)]
      rw [List.find?_cons_of_neg _ (by simp [hca]; exact Ne.symm hsa)]
    · rw [if_neg hca]
      by_cases hcs : c.name = s
      · rw [List.find?_cons_of_pos _ (by simp [hcs]), List.find?_cons_of_pos _ (by simp [hcs])]
      · rw [List.find?_cons_of_neg _ (by simp [hcs]), List.find?_cons_of_neg _ (by simp [hcs])]
        exact ih

/-- Lookup of the updated name returns the updated element, provided the
update preserves names. -/
theorem find?_updateSubdirNamed_self (g : FSDir → FSDir)
    (hn : ∀ c, (g c).name = c.name) (cs : List FSDir) (a : String) :
    List.find? (fun c => c.name = a) (updateSubdirNamed g cs a)
      = (List.find? (fun c => c.name = a) cs).map g := by
  induction cs with
  | nil => rfl
  | cons c cs ih =>
    simp only [updateSubdirNamed]
    by_cases hca : c.name = a
    · rw [if_pos hca]
      rw [List.find?_cons_of_pos _ (by simp [hn c, hca]),
        List.find?_cons_of_pos _ (by simp [hca])]
      rfl
    · rw [if_neg hca]
      rw [List.find?_cons_of_neg _ (by simp [hca]), List.find?_cons_of_neg _ (by simp [hca])]
      exact ih

/-- The name→own-mtime view of a subdirectory list is invariant under
updating one element with a name- and mtime-preserving function. -/
theorem find?_updateSubdirNamed_mtime (g : FSDir → FSDir)
    (hn : ∀ c, (g c).name = c.name) (hm : ∀ c, (g c).mtime = c.mtime)
    (cs : List FSDir) (a s : String) :
    (List.find? (fun c => c.name = s) (updateSubdirNamed g cs a)).map FSDir.mtime
      = (List.find? (fun c => c.name = s) cs).map FSDir.mtime := by
  by_cases hsa : s = a
  · subst hsa
    rw [find?_updateSubdirNamed_self g hn cs s]
    cases hfc : List.find? (fun c => c.name = s) cs with
    | none => rfl
    | some c => simp [hm c]
  · rw [find?_updateSubdirNamed_ne g hn cs a s hsa]

/-- Two directories with the same files, the same own mtime and the same
name→mtime view of their subdirectories have the same effective fingerprint
mtime. -/
theorem effectiveMtime_congr (d1 d2 : FSDir)
    (hf : d1.files = d2.files) (hm : d1.mtime = d2.mtime)
    (hs : ∀ n, (getSubdir? d1 n).map FSDir.mtime = (getSubdir? d2 n).map FSDir.mtime) :
    effectiveMtime d1 = effectiveMtime d2 := by
  have hent : ∀ n, entryMtime? d1 n = entryMtime? d2 n := by
    intro n
    simp only [entryMtime?, getFile?, hf]
    cases hfc : List.find? (fun f => f.name = n) d2.files with
    | none => simp only [hfc]; exact hs n
    | some f => simp only [hfc]
  have hmax : maxMarkerMtime d1 = maxMarkerMtime d2 := by
    simp only [maxMarkerMtime, hent]
  simp only [effectiveMtime, hmax, hm]

/-- Touching one file at address `addr` of the tree leaves the fingerprint of
the directory at any other address `b` unchanged (including ancestors of
`addr`, whose own files and mtime are untouched). -/
theorem cacheKey_touch_other (q fname : String) (m : Nat) :
    ∀ (addr b : List String) (t : FSDir), b ≠ addr →
    (dirAt? (touchAt t addr fname m) b).map (fun e => getCacheKey q e)
      = (dirAt? t b).map (fun e => getCacheKey q e) := by
  intro addr
  induction addr with
  | nil =>
    intro b t hne
    cases b with
    | nil => exact absurd rfl hne
    | cons s bs =>
      show (dirAt? (touchFileIn t fname m) (s :: bs)).map _ = _
      have hsub : (touchFileIn t fname m).subdirs = t.subdirs := rfl
      simp only [dirAt?, getSubdir?, hsub]
  | cons a as ih =>
    intro b t hne
    have hgn : ∀ c, (touchAt c as fname m).name = c.name :=
      fun c => touchAt_name c as fname m
    cases b with
    | nil =>
      simp only [dirAt?, Option.map_some']
      have hkey : getCacheKey q (touchAt t (a :: as) fname m) = getCacheKey q t := by
        have heff : effectiveMtime (touchAt t (a :: as) fname m) = effectiveMtime t := by
          apply effectiveMtime_congr
          · rfl
          · rfl
          · intro n
            show (List.find? (fun c => c.name = n)
                (updateSubdirNamed (fun c => touchAt c as fname m) t.subdirs a)).map FSDir.mtime
              = _
            exact find?_updateSubdirNamed_mtime _ hgn
              (fun c => touchAt_mtime c as fname m) t.subdirs a n
        simp only [getCacheKey, heff]
      rw [hkey]
    | cons s bs =>
      by_cases hsa : s = a
      · subst hsa
        have hfind : getSubdir? (touchAt t (s :: as) fname m) s
            = (getSubdir? t s).map (fun c => touchAt c as fname m) := by
          show List.find? (fun c => c.name = s)
              (updateSubdirNamed (fun c => touchAt c as fname m) t.subdirs s)
            = _
          exact find?_updateSubdirNamed_self _ hgn t.subdirs s
        simp only [dirAt?, hfind]
        rcases getSubdir? t s with _ | c
        · rfl
        · have hbs : bs ≠ as := by
            intro hcontra
            exact hne (by rw [hcontra])
          exact ih bs c hbs
      · have hfind : getSubdir? (touchAt t (a :: as) fname m) s = getSubdir? t s := by
          show List.find? (fun c => c.name = s)
              (updateSubdirNamed (fun c => touchAt c as fname m) t.subdirs a)
            = _
          exact find?_updateSubdirNamed_ne _ hgn t.subdirs a s hsa
        simp only [dirAt?, hfind]

/-- C6 amended: the fingerprint is the (injectively hashed) pair of the path
and the effective marker mtime; two fingerprints of the same directory path
coincide exactly when the effective mtime (maximal marker mtime, directory
mtime as fallback) coincides — so touching a marker file invalidates the
entry precisely when it changes that maximum — and touching a file in one
directory leaves the fingerprint of every other directory in the tree
unchanged. -/
theorem c6_amended (q : String) (d d' t : FSDir) (addr b : List String)
    (fname : String) (m : Nat) (hne : b ≠ addr) :
    (getCacheKey q d = getCacheKey q d' ↔ effectiveMtime d = effectiveMtime d')
    ∧ (dirAt? (touchAt t addr fname m) b).map (fun e => getCacheKey q e)
      = (dirAt? t b).map (fun e => getCacheKey q e) := by
  constructor
  · constructor
    · intro h
      exact congrArg Prod.snd h
    · intro h
      simp only [getCacheKey, h]
  · exact cacheKey_touch_other q fname m addr b t hne

/-- Witness for the amended C6 at concrete inputs: raising the non-maximal
marker of `exFpA` keeps the effective mtime 20 and hence the key, and
touching `README.md` inside `/p/proj` leaves the root fingerprint unchanged. -/
theorem c6_amended_witness :
    getCacheKey "/p/fp" exFpA = getCacheKey "/p/fp" exFpATouched
    ∧ (dirAt? (touchAt exRootProj ["proj"] "README.md" 99) []).map
        (fun e => getCacheKey "/p" e)
      = (dirAt? exRootProj []).map (fun e => getCacheKey "/p" e) := by
  refine ⟨(c6_amended "/p/fp" exFpA exFpATouched exRootProj ["proj"] [] "README.md" 99
      (by decide)).1.mpr (by rfl),
    (c6_amended "/p" exFpA exFpATouched exRootProj ["proj"] [] "README.md" 99
      (by decide)).2⟩

/-! ## C7 — the scan visits a bounded number of directories -/

/-- One loop iteration examines one directory and, through the abstracted
recursive call, at most `B` more. -/
theorem processChild_examined_le (cfg : ScanConfig) (segs : List String)
    (par : Option String) (depth : Nat)
    (recur : List String → Option String → Nat → FSDir → ScanAcc → ScanAcc)
    (acc : ScanAcc) (c : FSDir) (B : Nat)
    (hrec : ∀ segs2 par2 d2 a, (recur segs2 par2 (depth + 1) d2 a).examined ≤ a.examined + B) :
    (processChild cfg segs par depth recur acc c).examined ≤ acc.examined + 1 + B := by
  simp only [processChild]
  split_ifs with h1 h2 h3
  · dsimp only
    omega
  · calc (recur (segs ++ [c.name]) (some (renderPath cfg.projectsDir (segs ++ [c.name])))
          (depth + 1) c _).examined
        ≤ _ + B := hrec _ _ _ _
      _ = acc.examined + 1 + B := by
          rw [show (∀ (a2 : ScanAcc) (l : List String),
              ({ a2 with recursedInto := l } : ScanAcc).examined = a2.examined) from
            fun _ _ => rfl]
          rw [(analyzeChild_fields cfg segs par depth _ c).2.1]
  · rw [(analyzeChild_fields cfg segs par depth _ c).2.1]
    dsimp only
    omega
  · dsimp only
    omega

/-- Folding a step that examines at most `K` directories over a list examines
at most `length · K` directories. -/
theorem foldl_examined_le (f : ScanAcc → FSDir → ScanAcc) (K : Nat)
    (hf : ∀ a c, (f a c).examined ≤ a.examined + K) :
    ∀ (cs : List FSDir) (acc : ScanAcc),
    (cs.foldl f acc).examined ≤ acc.examined + cs.length * K := by
  intro cs
  induction cs with
  | nil =>
    intro acc
    simp
  | cons c cs ih =>
    intro acc
    simp only [List.foldl_cons, List.length_cons]
    calc (cs.foldl f (f acc c)).examined ≤ (f acc c).examined + cs.length * K := ih _
      _ ≤ acc.examined + K + cs.length * K := by
          have := hf acc c
          omega
      _ = acc.examined + (cs.length + 1) * K := by ring

/-- A call of `_load_hierarchical_projects` at `depth` examines at most
`levelBudget depth` directories in total, for every fuel value. -/
theorem scanInto_examined_le (cfg : ScanConfig) :
    ∀ (fuel : Nat) (segs : List String) (par : Option String) (depth : Nat)
      (d : FSDir) (acc : ScanAcc),
    (scanInto cfg fuel segs par depth d acc).examined ≤ acc.examined + levelBudget depth := by
  intro fuel
  induction fuel with
  | zero =>
    intro segs par depth d acc
    simp [scanInto]
  | succ fuel ih =>
    intro segs par depth d acc
    simp only [scanInto]
    split_ifs with hd
    · omega
    · have hstep : ∀ (a : ScanAcc) (c : FSDir),
          ((processChild cfg segs par depth
            (fun segs2 par2 depth2 d2 acc2 => scanInto cfg fuel segs2 par2 depth2 d2 acc2))
            a c).examined ≤ a.examined + (1 + levelBudget (depth + 1)) := by
        intro a c
        have := processChild_examined_le cfg segs par depth
          (fun segs2 par2 depth2 d2 acc2 => scanInto cfg fuel segs2 par2 depth2 d2 acc2)
          a c (levelBudget (depth + 1))
          (fun segs2 par2 d2 a2 => ih segs2 par2 (depth + 1) d2 a2)
        omega
      have hbound := foldl_examined_le _ (1 + levelBudget (depth + 1)) hstep
        (prepareChildren depth d) acc
      have hlen : (prepareChildren depth d).length ≤ capAt depth := by
        simp [prepareChildren]
      have hmul : (prepareChildren depth d).length * (1 + levelBudget (depth + 1))
          ≤ capAt depth * (1 + levelBudget (depth + 1)) :=
        Nat.mul_le_mul_right _ hlen
      have hlb : levelBudget depth = capAt depth * (1 + levelBudget (depth + 1)) := by
        rw [levelBudget, if_neg hd]
      omega

/-- C7: the recursive scan is total (it is a function in this model), stops at
depth 3 below the root, caps the fan-out at 15/8/5 per level, and therefore
examines at most 15·(1 + 8·(1 + 5)) = 735 directories on any tree
whatsoever. -/
theorem c7_scan_bounded (cfg : ScanConfig) (root : FSDir) (acc : ScanAcc) :
    (∀ (fuel : Nat) (segs : List String) (par : Option String) (d : FSDir) (a : ScanAcc),
      scanInto cfg fuel segs par 3 d a = a)
    ∧ capAt 0 = 15 ∧ capAt 1 = 8 ∧ capAt 2 = 5
    ∧ (scanRoot cfg root acc).examined ≤ acc.examined + 735 := by
  refine ⟨?_, rfl, rfl, rfl, ?_⟩
  · intro fuel segs par d a
    cases fuel <;> simp [scanInto]
  · have h3 : levelBudget 3 = 0 := by
      rw [levelBudget]
      norm_num
    have h2 : levelBudget 2 = 5 := by
      rw [levelBudget]
      norm_num [capAt, h3]
    have h1 : levelBudget 1 = 48 := by
      rw [levelBudget]
      norm_num [capAt, h2]
    have h0 : levelBudget 0 = 735 := by
      rw [levelBudget]
      norm_num [capAt, h1]
    have h := scanInto_examined_le cfg 4 [] none 0 root acc
    simp only [scanRoot]
    omega

/-! ## C10 — hidden directories are never classified -/

/-- Insertion produces no new elements. -/
theorem mem_of_mem_insertByLower {x y : FSDir} {l : List FSDir} :
    x ∈ insertByLower y l → x = y ∨ x ∈ l := by
  induction l with
  | nil =>
    intro h
    simpa [insertByLower] using h
  | cons z zs ih =>
    simp only [insertByLower]
    split_ifs
    · intro h
      rcases List.mem_cons.mp h with h | h
      · exact Or.inr (List.mem_cons.mpr (Or.inl h))
      · rcases ih h with h | h
        · exact Or.inl h
        · exact Or.inr (List.mem_cons.mpr (Or.inr h))
    · intro h
      rcases List.mem_cons.mp h with h | h
      · exact Or.inl h
      · exact Or.inr h

/-- Sorting produces no new elements. -/
theorem mem_of_mem_sortByLower {x : FSDir} {l : List FSDir} :
    x ∈ sortByLower l → x ∈ l := by
  induction l with
  | nil =>
    intro h
    simpa [sortByLower] using h
  | cons y ys ih =>
    intro h
    rcases mem_of_mem_insertByLower h with h | h
    · exact h ▸ List.mem_cons_self y ys
    · exact List.mem_cons.mpr (Or.inr (ih h))

/-- Everything the scanner iterates over at one level is a non-hidden child:
the dot filter runs before sorting and capping. -/
theorem prepareChildren_not_hidden (depth : Nat) (d : FSDir) :
    ∀ c ∈ prepareChildren depth d, hiddenName c.name = false := by
  intro c hc
  have h1 : c ∈ sortChildren d.subdirs := List.mem_of_mem_take hc
  have h2 : c ∈ d.subdirs.filter (fun c => !(hiddenName c.name)) :=
    mem_of_mem_sortByLower h1
  have h3 := (List.mem_filter.mp h2).2
  simp at h3
  exact h3

/-- One loop iteration adds only the processed child's (non-hidden) name to
the emission log, provided the abstracted recursion preserves the property. -/
theorem processChild_emitted (cfg : ScanConfig) (segs : List String) (par : Option String)
    (depth : Nat)
    (recur : List String → Option String → Nat → FSDir → ScanAcc → ScanAcc)
    (acc : ScanAcc) (c : FSDir)
    (hc : hiddenName c.name = false)
    (hacc : ∀ n ∈ acc.emittedFor, hiddenName n = false)
    (hrec : ∀ segs2 par2 depth2 d2 (a : ScanAcc),
      (∀ n ∈ a.emittedFor, hiddenName n = false) →
      ∀ n ∈ (recur segs2 par2 depth2 d2 a).emittedFor, hiddenName n = false) :
    ∀ n ∈ (processChild cfg segs par depth recur acc c).emittedFor, hiddenName n = false := by
  have hana : ∀ n ∈ (analyzeChild cfg segs par depth
      { acc with examined := acc.examined + 1 } c).emittedFor, hiddenName n = false := by
    intro n hn
    rw [(analyzeChild_fields cfg segs par depth _ c).2.2] at hn
    rcases List.mem_append.mp hn with h | h
    · exact hacc n h
    · rw [List.mem_singleton] at h
      exact h ▸ hc
  simp only [processChild]
  split_ifs with h1 h2 h3
  · exact hacc
  · apply hrec
    intro n hn
    exact hana n hn
  · exact hana
  · exact hacc

/-- The scan only ever logs non-hidden directory names, for every fuel
value. -/
theorem scanInto_emitted (cfg : ScanConfig) :
    ∀ (fuel : Nat) (segs : List String) (par : Option String) (depth : Nat)
      (d : FSDir) (acc : ScanAcc),
    (∀ n ∈ acc.emittedFor, hiddenName n = false) →
    ∀ n ∈ (scanInto cfg fuel segs par depth d acc).emittedFor, hiddenName n = false := by
  intro fuel
  induction fuel with
  | zero =>
    intro segs par depth d acc hacc
    simpa [scanInto] using hacc
  | succ fuel ih =>
    intro segs par depth d acc hacc
    simp only [scanInto]
    split_ifs with hd
    · exact hacc
    · have main : ∀ (cs : List FSDir), (∀ c ∈ cs, hiddenName c.name = false) →
          ∀ (a : ScanAcc), (∀ n ∈ a.emittedFor, hiddenName n = false) →
          ∀ n ∈ (cs.foldl (processChild cfg segs par depth
            (fun segs2 par2 depth2 d2 acc2 => scanInto cfg fuel segs2 par2 depth2 d2 acc2))
            a).emittedFor, hiddenName n = false := by
        intro cs
        induction cs with
        | nil =>
          intro _ a ha
          simpa using ha
        | cons c cs ihl =>
          intro hcs a ha
          simp only [List.foldl_cons]
          exact ihl (fun c' hc' => hcs c' (List.mem_cons.mpr (Or.inr hc')))
            _ (processChild_emitted cfg segs par depth _ a c
                (hcs c (List.mem_cons_self c cs)) ha
                (fun segs2 par2 depth2 d2 a2 ha2 => ih segs2 par2 depth2 d2 a2 ha2))
      exact main _ (prepareChildren_not_hidden depth d) acc hacc

/-- C10: the scanner never creates a record for a dot-named directory — every
name it emits a record for is non-hidden, at every level — and the collection
predicate ignores dot-named subdirectories when counting (adding a hidden
subdirectory never changes it). -/
theorem c10_hidden_never_classified (cfg : ScanConfig) (root : FSDir) :
    (∀ n ∈ (scanRoot cfg root emptyAcc).emittedFor, hiddenName n = false)
    ∧ ∀ (d h : FSDir), hiddenName h.name = true →
      isCollectionFolder (FSDir.mk d.name d.mtime d.files (h :: d.subdirs))
        = isCollectionFolder d := by
  constructor
  · intro n hn
    exact scanInto_emitted cfg 4 [] none 0 root emptyAcc (by simp [emptyAcc]) n hn
  · intro d h hh
    have hsub : nonHiddenSubdirs (FSDir.mk d.name d.mtime d.files (h :: d.subdirs))
        = nonHiddenSubdirs d := by
      simp [nonHiddenSubdirs, List.filter_cons, hh]
    simp only [isCollectionFolder, hsub]

/-- Witness for C10 at concrete inputs: prepending the hidden directory
`exHidden` to `exColl` leaves the collection predicate unchanged. -/
theorem c10_witness :
    isCollectionFolder (FSDir.mk exColl.name exColl.mtime exColl.files
      (exHidden :: exColl.subdirs)) = isCollectionFolder exColl :=
  (c10_hidden_never_classified exCfg exRootProj).2 exColl exHidden (by rfl)

/-! ## C8 — deterministic, case-insensitive child ordering

The sort key is correct — children are visited in nondecreasing order of
their lower-cased names — but Python's sort is stable, so two sibling names
that are *equal after lower-casing* (possible on a case-sensitive
filesystem: `Abc` and `abc`) keep their filesystem enumeration order, and two
scans of the same tree with different enumeration orders produce different
output orders. -/

/-- Strict code-point order on character lists is irreflexive. -/
theorem charListLt_irrefl : ∀ a, charListLt a a = false := by
  intro a
  induction a with
  | nil => rfl
  | cons c cs ih => simp [charListLt, ih]

/-- Strict code-point order on character lists is transitive. -/
theorem charListLt_trans : ∀ a b c, charListLt a b = true → charListLt b c = true →
    charListLt a c = true := by
  intro a
  induction a with
  | nil =>
    intro b c hab hbc
    cases b with
    | nil => cases hab
    | cons y ys =>
      cases c with
      | nil => cases hbc
      | cons z zs => rfl
  | cons x xs ih =>
    intro b c hab hbc
    cases b with
    | nil => cases hab
    | cons y ys =>
      cases c with
      | nil => cases hbc
      | cons z zs =>
        simp only [charListLt] at hab hbc ⊢
        by_cases hxy : x = y
        · subst hxy
          rw [if_pos rfl] at hab
          by_cases hyz : x = z
          · subst hyz
            rw [if_pos rfl] at hbc ⊢
            exact ih ys zs hab hbc
          · rw [if_neg hyz] at hbc ⊢
            exact hbc
        · rw [if_neg hxy] at hab
          by_cases hyz : y = z
          · subst hyz
            rw [if_neg hxy]
            exact hab
          · rw [if_neg hyz] at hbc
            have h1 := of_decide_eq_true hab
            have h2 := of_decide_eq_true hbc
            by_cases hxz : x = z
            · subst hxz
              omega
            · rw [if_neg hxz]
              exact decide_eq_true (by omega)

/-- Strict code-point order on character lists is asymmetric. -/
theorem charListLt_asymm : ∀ a b, charListLt a b = true → charListLt b a = false := by
  intro a b hab
  by_contra h
  have hba : charListLt b a = true := by
    simpa using h
  have := charListLt_trans a b a hab hba
  rw [charListLt_irrefl] at this
  cases this

/-- Code-point comparison of two characters is total. -/
theorem char_eq_of_toNat_eq {a b : Char} (h : a.toNat = b.toNat) : a = b := by
  rw [← Char.ofNat_toNat a, ← Char.ofNat_toNat b, h]

/-- Strict code-point order on character lists is trichotomous. -/
theorem charListLt_trichotomy : ∀ a b, charListLt a b = true ∨ charListLt b a = true ∨ a = b := by
  intro a
  induction a with
  | nil =>
    intro b
    cases b with
    | nil => exact Or.inr (Or.inr rfl)
    | cons y ys => exact Or.inl rfl
  | cons x xs ih =>
    intro b
    cases b with
    | nil => exact Or.inr (Or.inl rfl)
    | cons y ys =>
      by_cases hxy : x = y
      · subst hxy
        rcases ih ys with h | h | h
        · exact Or.inl (by simp [charListLt, h])
        · exact Or.inr (Or.inl (by simp [charListLt, h]))
        · exact Or.inr (Or.inr (by rw [h]))
      · have hne : x.toNat ≠ y.toNat := fun hEq => hxy (char_eq_of_toNat_eq hEq)
        rcases Nat.lt_or_ge x.toNat y.toNat with h | h
        · exact Or.inl (by simp [charListLt, hxy, h])
        · have hyx : y.toNat < x.toNat := by omega
          exact Or.inr (Or.inl (by simp [charListLt, Ne.symm hxy, hyx]))

/-- "Not above" is transitive for the code-point order. -/
theorem charListLt_false_trans (a b c : List Char)
    (h1 : charListLt a b = false) (h2 : charListLt b c = false) :
    charListLt a c = false := by
  by_contra h
  have hac : charListLt a c = true := by simpa using h
  rcases charListLt_trichotomy c b with hcb | hbc | hcb
  · have := charListLt_trans a c b hac hcb
    rw [h1] at this
    cases this
  · rw [h2] at hbc
    cases hbc
  · subst hcb
    rw [h1] at hac
    cases hac

/-- Stable insertion keeps the list a permutation. -/
theorem insertByLower_perm (x : FSDir) (l : List FSDir) :
    (insertByLower x l).Perm (x :: l) := by
  induction l with
  | nil => exact List.Perm.refl _
  | cons y ys ih =>
    simp only [insertByLower]
    split_ifs
    · exact (ih.cons y).trans (List.Perm.swap x y ys)
    · exact List.Perm.refl _

/-- The stable sort is a permutation of its input. -/
theorem sortByLower_perm (l : List FSDir) : (sortByLower l).Perm l := by
  induction l with
  | nil => exact List.Perm.refl _
  | cons x xs ih =>
    exact (insertByLower_perm x (sortByLower xs)).trans (ih.cons x)

/-- Stable insertion preserves sortedness by lower-cased name. -/
theorem pairwise_insertByLower (x : FSDir) (l : List FSDir)
    (hl : l.Pairwise (fun a b => charListLt (lowerKey b.name) (lowerKey a.name) = false)) :
    (insertByLower x l).Pairwise
      (fun a b => charListLt (lowerKey b.name) (lowerKey a.name) = false) := by
  induction l with
  | nil => simp [insertByLower]
  | cons y ys ih =>
    rcases List.pairwise_cons.mp hl with ⟨hy, hys⟩
    simp only [insertByLower]
    split_ifs with h
    · refine List.pairwise_cons.mpr ⟨?_, ih hys⟩
      intro z hz
      rcases mem_of_mem_insertByLower hz with rfl | hz'
      · exact charListLt_asymm _ _ h
      · exact hy z hz'
    · have h' : charListLt (lowerKey y.name) (lowerKey x.name) = false := by
        simpa using h
      refine List.pairwise_cons.mpr ⟨?_, hl⟩
      intro z hz
      rcases List.mem_cons.mp hz with rfl | hz'
      · exact h'
      · exact charListLt_false_trans _ _ _ (hy z hz') h'

/-- The scanner's sort output is nondecreasing in the lower-cased name. -/
theorem sortByLower_pairwise (l : List FSDir) :
    (sortByLower l).Pairwise
      (fun a b => charListLt (lowerKey b.name) (lowerKey a.name) = false) := by
  induction l with
  | nil => simp [sortByLower]
  | cons x xs ih => exact pairwise_insertByLower x (sortByLower xs) ih

/-- With pairwise-distinct keys, nonstrict sortedness upgrades to strict
sortedness. -/
theorem pairwise_strict {l : List FSDir}
    (hs : l.Pairwise (fun a b => charListLt (lowerKey b.name) (lowerKey a.name) = false))
    (hn : (l.map (fun c => lowerKey c.name)).Nodup) :
    l.Pairwise (fun a b => charListLt (lowerKey a.name) (lowerKey b.name) = true) := by
  have hne : l.Pairwise (fun a b => lowerKey a.name ≠ lowerKey b.name) :=
    List.pairwise_map.mp hn
  refine (hs.and hne).imp ?_
  intro a b hab
  rcases hab with ⟨h1, h2⟩
  rcases charListLt_trichotomy (lowerKey a.name) (lowerKey b.name) with h | h | h
  · exact h
  · rw [h1] at h
    cases h
  · exact absurd h h2

/-- C8 counterexample: the sibling names `Abc` and `abc` are equal after
lower-casing; the two enumeration orders of the same tree are permutations of
one another, yet the scan emits the records in different orders. -/
theorem c8_counterexample :
    ([exAbcU, exAbcL].Perm [exAbcL, exAbcU])
    ∧ (scanRoot exCfg (FSDir.mk "root" 1 [] [exAbcU, exAbcL]) emptyAcc).projects.map
        (fun p => p.name) = ["Abc", "abc"]
    ∧ (scanRoot exCfg (FSDir.mk "root" 1 [] [exAbcL, exAbcU]) emptyAcc).projects.map
        (fun p => p.name) = ["abc", "Abc"] := by
  refine ⟨List.Perm.swap exAbcL exAbcU [], by rfl, by rfl⟩

/-- C8 amended: the children the scanner iterates are always in nondecreasing
case-insensitive lexicographic order of directory name; and whenever no two
non-hidden sibling names coincide after lower-casing, the visit order is
independent of the filesystem enumeration order.  With a case-insensitive
tie, the stable sort preserves enumeration order (see the counterexample). -/
theorem c8_amended (l1 l2 : List FSDir) (hperm : l1.Perm l2)
    (hnodup : ((l1.filter (fun c => !(hiddenName c.name))).map
      (fun c => lowerKey c.name)).Nodup) :
    sortChildren l1 = sortChildren l2
    ∧ ∀ (l : List FSDir), (sortChildren l).Pairwise
        (fun a b => charListLt (lowerKey b.name) (lowerKey a.name) = false) := by
  constructor
  · have hpf : (l1.filter (fun c => !(hiddenName c.name))).Perm
        (l2.filter (fun c => !(hiddenName c.name))) := hperm.filter _
    have hperm_s : (sortChildren l1).Perm (sortChildren l2) :=
      ((sortByLower_perm _).trans hpf).trans (sortByLower_perm _).symm
    have hnod1 : ((sortChildren l1).map (fun c => lowerKey c.name)).Nodup :=
      (((sortByLower_perm _).map (fun c => lowerKey c.name)).nodup_iff).mpr hnodup
    have hnod2 : ((sortChildren l2).map (fun c => lowerKey c.name)).Nodup :=
      ((hperm_s.map (fun c => lowerKey c.name)).nodup_iff).mp hnod1
    have hstrict1 := pairwise_strict (sortByLower_pairwise _) hnod1
    have hstrict2 := pairwise_strict (sortByLower_pairwise _) hnod2
    haveI : IsAntisymm FSDir
        (fun a b => charListLt (lowerKey a.name) (lowerKey b.name) = true) := by
      refine ⟨fun a b h1 h2 => ?_⟩
      rw [charListLt_asymm _ _ h1] at h2
      cases h2
    exact List.eq_of_perm_of_sorted hperm_s hstrict1 hstrict2
  · intro l
    exact sortByLower_pairwise _

/-- Witness for the amended C8 at concrete inputs: two enumeration orders of
the distinct-keyed pair {`abc`, `pyproj`} sort identically. -/
theorem c8_amended_witness :
    sortChildren [exAbcL, exPyProj] = sortChildren [exPyProj, exAbcL] := by
  exact (c8_amended [exAbcL, exPyProj] [exPyProj, exAbcL]
    (List.Perm.swap exPyProj exAbcL []) (by decide)).1

end ProjectManager
